import Mathlib

/-!
# Verification of the lrclibium synchronized-lyrics engine

Shallow embedding of `src/lrclibium.py` and proofs about it.

Conventions used throughout:
* Python `float` offsets are idealized as `ℚ` (the claims under study concern
  ordering and structure, not binary rounding).
* Python strings are modelled as `List Char` internally; the public entry
  points take `String` and convert via `String.data`.
* `re` digit class `\d` is modelled as ASCII digits (`Char.isDigit`); the
  claims under study involve only ASCII input.
-/

namespace Lrclibium

/-! ## The timestamp scanner

Embeds `TIMESTAMP_RE = re.compile(r"\[(\d+):(\d+\.\d+)\]")` and
`TIMESTAMP_RE.finditer(line)` (src/lrclibium.py line 15, line 71).

For this pattern each `\d+` is followed by a literal non-digit
(`:`, `.` or `]`), so Python's backtracking can never recover a match that
maximal-munch digit scanning misses: shortening a greedy `\d+` run only
places a digit where a non-digit literal is required.  The scanner below
therefore reads each digit run greedily, which is exactly the match set
`re` produces. -/

/-- Numeric value of a digit string, as `int()` / the integer part of
`float()` read it. -/
def digitsVal (ds : List Char) : Nat :=
  ds.foldl (fun a c => 10 * a + (c.toNat - 48)) 0

/-- Greedy digit run: the longest digit prefix and the rest. -/
def digitSpan (cs : List Char) : List Char × List Char :=
  (cs.takeWhile Char.isDigit, cs.dropWhile Char.isDigit)

/-- Offset contributed by one matched token `[m:s.f]`:
`int(m) * 60 + float(s.f)`, with the decimal fraction exact in `ℚ`.
Written as one `mkRat` (over the common denominator `10 ^ |f|`) so that it
evaluates inside the kernel; `tokenOffset_eq_formula` below identifies it
with the literal `mins * 60 + seconds` arithmetic of src line 79. -/
def tokenOffset (m s f : List Char) : ℚ :=
  mkRat ((60 * digitsVal m + digitsVal s) * 10 ^ f.length + digitsVal f) (10 ^ f.length)

/-- Consume one expected literal character. -/
def expectCh (c : Char) : List Char → Option (List Char)
  | x :: r => if x = c then some r else none
  | [] => none

/-- Consume a non-empty greedy digit run (`\d+`). -/
def digits1 (cs : List Char) : Option (List Char × List Char) :=
  match digitSpan cs with
  | ([], _) => none
  | (ds, r) => some (ds, r)

/-- Match `TIMESTAMP_RE` at the head of `cs`: on success, the offset seconds
of the token (`mins * 60 + secs`, src line 79) and the characters after the
closing bracket.  The regex requires a fractional part (`\d+\.\d+`). -/
def matchTs (cs : List Char) : Option (ℚ × List Char) :=
  (expectCh '[' cs).bind fun r1 =>
  (digits1 r1).bind fun p1 =>
  (expectCh ':' p1.2).bind fun r3 =>
  (digits1 r3).bind fun p2 =>
  (expectCh '.' p2.2).bind fun r5 =>
  (digits1 r5).bind fun p3 =>
  (expectCh ']' p3.2).map fun r7 => (tokenOffset p1.1 p2.1 p3.1, r7)

/-- All matches of the timestamp pattern, left to right, each paired with the
suffix following its closing bracket (so the last pair's suffix is
`line[matches[-1].end():]`).

`finditer` restarts after each match; this scanner advances one character at
a time, which finds the same matches: a match's interior holds only digits,
`:`, `.` and `]`, never `[`, so no match can begin strictly inside another. -/
def scanTs : List Char → List (ℚ × List Char)
  | [] => []
  | c :: cs =>
    match matchTs (c :: cs) with
    | some (q, rest) => (q, rest) :: scanTs cs
    | none => scanTs cs

/-! ## `str.splitlines` and `str.strip` -/

/-- Python line-boundary characters (`str.splitlines`). -/
def isLineBreak (c : Char) : Bool :=
  c = '\n' || c = '\r' || c = '\x0b' || c = '\x0c' ||
  (c.toNat = 28) || (c.toNat = 29) || (c.toNat = 30) || (c.toNat = 133) ||
  (c.toNat = 8232) || (c.toNat = 8233)

/-- `str.splitlines`: split at line boundaries, `\r\n` counting as one,
with no trailing empty record. -/
def splitlinesGo : List Char → List Char → List (List Char)
  | [], acc => if acc.isEmpty then [] else [acc.reverse]
  | '\r' :: '\n' :: rest, acc => acc.reverse :: splitlinesGo rest []
  | c :: rest, acc =>
    if isLineBreak c then acc.reverse :: splitlinesGo rest []
    else splitlinesGo rest (c :: acc)

/-- ASCII whitespace stripped by `str.strip()`. -/
def pySpace (c : Char) : Bool :=
  c = ' ' || c = '\t' || c = '\n' || c = '\r' || c = '\x0b' || c = '\x0c'

/-- `str.strip()` on the modelled character set. -/
def pyStrip (cs : List Char) : List Char :=
  ((cs.dropWhile pySpace).reverse.dropWhile pySpace).reverse

/-! ## `LyricsManager.parse_lrc` (src lines 67-82) -/

/-- The sentinel text returned when no line parses (src line 82). -/
def noParseText : String := "❌ No parseable lyrics found"

/-- The sentinel text for a failed lyric retrieval (src lines 37, 53, 55). -/
def notFoundText : String := "❌ Lyrics not found"

/-- One record of the loop body (src lines 70-81): find all timestamp
matches; with none the record contributes nothing; otherwise the display
text is the stripped suffix of the last match and every match emits one
`(offset, text)` pair.

The `try`/`except` around `int`/`float` (src lines 76-81) cannot fire: the
regex groups are guaranteed digit strings, which `int()` and `float()`
always accept, so no token is ever skipped there. -/
def parseRecord (line : List Char) : List (ℚ × String) :=
  let ms := scanTs line
  match ms.getLast? with
  | none => []
  | some last =>
    let lyric := String.mk (pyStrip last.2)
    ms.map fun m => (m.1, lyric)

/-- The accumulated `lines` list of `parse_lrc` just before sorting:
records in file order, each contributing its parsed pairs in match order. -/
def parseLines (text : String) : List (ℚ × String) :=
  (splitlinesGo text.data []).foldr (fun l acc => parseRecord l ++ acc) []

/-- Stable insertion of one pair into an offset-sorted list: the new pair
goes after every element whose offset is `≤` its own. -/
def insertByOffset (x : ℚ × String) : List (ℚ × String) → List (ℚ × String)
  | [] => [x]
  | y :: ys => if y.1 ≤ x.1 then y :: insertByOffset x ys else x :: y :: ys

/-- `sorted(lines, key=lambda x: x[0])` (src line 82).  Python's sort is
stable, and all stable sorts by the same key agree extensionally, so a
stable insertion sort is an exact model. -/
def pySort (l : List (ℚ × String)) : List (ℚ × String) :=
  l.foldl (fun acc x => insertByOffset x acc) []

/-- `LyricsManager.parse_lrc` (src lines 67-82). -/
def parse_lrc (text : String) : List (ℚ × String) :=
  let ls := parseLines text
  if ls.isEmpty then [(0, noParseText)] else pySort ls

/-- Decidable check that a sequence is sorted non-decreasing by offset. -/
def sortedByOffset : List (ℚ × String) → Bool
  | [] => true
  | [_] => true
  | x :: y :: rest => decide (x.1 ≤ y.1) && sortedByOffset (y :: rest)

/-! ## `LyricsManager` cache (src lines 23-41)

`self.cache` is an `OrderedDict`; modelled as an association list with the
oldest (least recently used) entry at the head and the most recent at the
tail, matching `move_to_end` / `popitem(last=False)`. -/

abbrev Lyrics := List (ℚ × String)

abbrev Cache := List (String × Lyrics)

/-- Membership / value lookup, `key in self.cache` and `self.cache[key]`. -/
def cacheLookup (k : String) : Cache → Option Lyrics
  | [] => none
  | e :: rest => if e.1 = k then some e.2 else cacheLookup k rest

/-- `self.cache.move_to_end(key)` (src line 31). -/
def moveToEnd (k : String) : Cache → Cache
  | [] => []
  | e :: rest => if e.1 = k then rest ++ [e] else e :: moveToEnd k rest

/-- The cache key `f"{artist} - {title}"` (src line 29). -/
def cacheKey (artist title : String) : String := artist ++ " - " ++ title

/-- One track object of the lrclib search response; only the two lyric
fields that `_fetch_lyrics` reads are relevant (`None` when absent or when
the JSON value is not usable text). -/
structure Track where
  syncedLyrics : Option String
  plainLyrics : Option String

/-- The outcome of the network interaction inside `_fetch_lyrics`
(src lines 46-56), which is external input to the program:
* `httpFailure` — the GET / `raise_for_status` / `.json()` raised; caught
  by the inner `except` (src line 51).
* `searchResult data` — the JSON decoded to a list of tracks (possibly
  empty, the "empty result" case of src line 54).
* `nonListJson` — the JSON decoded but `data[0]` (src line 56) raised
  (e.g. the payload was an object); this exception escapes
  `_fetch_lyrics` and is caught only in `get_lyrics` (src line 35). -/
inductive FetchOutcome where
  | httpFailure
  | searchResult (data : List Track)
  | nonListJson

/-- Python `a or b` on optional strings: `None` and `""` are falsy. -/
def orStr (a : Option String) (b : String) : String :=
  match a with
  | some s => if s = "" then b else s
  | none => b

/-- `LyricsManager._fetch_lyrics` (src lines 43-65) as a function of the
network outcome; `Except.error` is an exception escaping the method.

The URL-download branch (src lines 58-64) evaluates
`await client.get(lyrics_text).text`, which takes the attribute `.text` of
a coroutine and so raises `AttributeError` unconditionally; the enclosing
`except` then substitutes the not-found sentinel, so the branch always
yields the sentinel text. -/
def fetch_lyrics (env : FetchOutcome) : Except Unit Lyrics :=
  match env with
  | .httpFailure => .ok [(0, notFoundText)]
  | .searchResult [] => .ok [(0, notFoundText)]
  | .searchResult (track :: _) =>
    let t0 := orStr track.syncedLyrics (orStr track.plainLyrics notFoundText)
    let t1 := if t0.startsWith "http" then notFoundText else t0
    .ok (parse_lrc t1)
  | .nonListJson => .error ()

/-- `LyricsManager.get_lyrics` (src lines 28-41): returns the lyrics handed
back to the caller, the cache afterwards, and whether `_fetch_lyrics` was
invoked.  `capacity` is `self.cache_size`.

On a hit the key is promoted (src line 31).  On a miss, a fetch that raises
is answered with the sentinel *without touching the cache* (src lines
35-37); a fetch that returns is stored, and if the count then exceeds
`cache_size` the oldest entry is popped (src lines 38-40). -/
def get_lyrics (capacity : Int) (cache : Cache) (artist title : String)
    (env : FetchOutcome) : Lyrics × Cache × Bool :=
  let key := cacheKey artist title
  match cacheLookup key cache with
  | some v => (v, moveToEnd key cache, false)
  | none =>
    match fetch_lyrics env with
    | .error _ => ([(0, notFoundText)], cache, true)
    | .ok lyrics =>
      let c := cache ++ [(key, lyrics)]
      (lyrics, if capacity < (c.length : Int) then c.drop 1 else c, true)

/-- One cache-touching tick: the song identity asked for and the network
outcome a miss would see. -/
structure TickOp where
  artist : String
  title : String
  env : FetchOutcome

/-- A sequence of `get_lyrics` calls threaded through the cache. -/
def runOps (capacity : Int) (cache : Cache) : List TickOp → Cache
  | [] => cache
  | op :: rest =>
    runOps capacity (get_lyrics capacity cache op.artist op.title op.env).2.1 rest

/-! ## `WindowManager.get_indices` (src lines 136-147) -/

/-- `WindowManager.get_indices` with `size = self.size`.  Python `//` is
floor division, `Int.fdiv` here. -/
def get_indices (size current_index total_lines : Int) : Int × Int :=
  if total_lines ≤ size then (0, total_lines)
  else
    let half := Int.fdiv size 2
    let top := max 0 (current_index - half)
    let bottom := min (top + size) total_lines
    let top2 := max 0 (bottom - size)
    (top2, bottom)

/-! ## The active-line locator inside `render_panel` (src lines 151-157) -/

/-- The `for i in range(len(lyrics)-1)` search: index of the first adjacent
pair with `lyrics[i][0] <= current_time < lyrics[i+1][0]`, scanning the
offset list. -/
def findBracket (t : ℚ) : List ℚ → Option Nat
  | [] => none
  | a :: rest =>
    match rest with
    | [] => none
    | b :: _ =>
      if a ≤ t ∧ t < b then some 0
      else (findBracket t rest).map (· + 1)

/-- The active-line index computed in `render_panel` (src lines 151-157):
the loop breaks at the first bracketing pair, and the `for`/`else` falls
back to `len(lyrics) - 1` when no pair brackets the time.  (For the empty
list Python would produce `-1`; sequences are non-empty by construction and
`Nat` truncation at `0` is never exercised by the theorems below.) -/
def activeIndex (lyrics : Lyrics) (t : ℚ) : Nat :=
  match findBracket t (lyrics.map Prod.fst) with
  | some i => i
  | none => lyrics.length - 1

/-- Offset at an index, with an irrelevant default. -/
def offAt (lyrics : Lyrics) (i : Nat) : ℚ := (lyrics.getD i (0, "")).1

/-! ## Startup (`choose_player`, `main`, src lines 120-217) -/

/-- `choose_player` (src lines 120-134) as a function of the forced name
and of the probing result (`probe` abstracts the `playerctl -l` scan, the
part of the function that is pure I/O): a truthy forced name short-circuits
the probe. -/
def choose_player (forced : Option String) (probe : Option String) : Option String :=
  match forced with
  | some f => if f = "" then probe else some f
  | none => probe

/-- Whether `main` (src lines 204-217) reaches `asyncio.run(run_lyrics ...)`,
i.e. enters the synchronization loop, given the parsed arguments and the
probing result.  The only gate in `main` is `if not player_name` (src line
213): the `--window` and `--cache-size` values are never validated. -/
def mainEntersLoop (forcedPlayer : Option String) (probe : Option String)
    (_window _cacheSize : Int) : Bool :=
  match choose_player forcedPlayer probe with
  | none => false
  | some s => !(s == "")

/-! ## Input-shape scaffolding for the parser theorems -/

/-- The characters of one well-formed timestamp token `[m:s.f]`. -/
def tsToken (m s f : List Char) : List Char :=
  '[' :: (m ++ ':' :: (s ++ '.' :: (f ++ [']'])))

/-- A non-empty all-digit character list (a well-formed regex group). -/
def digitsNE (l : List Char) : Bool := !l.isEmpty && l.all Char.isDigit

/-- The sublist of a sequence at one fixed offset value — the probe used to
state sort stability. -/
def offsetFilter (q : ℚ) (l : Lyrics) : Lyrics :=
  l.filter fun e => decide (e.1 = q)

end Lrclibium

namespace Lrclibium

/-! ## Scanner lemmas -/

/-- The token offset is exactly `minutes * 60 + seconds`, the seconds being
the decimal `s.f` read as an exact rational. -/
theorem tokenOffset_eq_formula (m s f : List Char) :
    tokenOffset m s f =
      ((60 * digitsVal m + digitsVal s : ℕ) : ℚ) +
        (digitsVal f : ℚ) / (10 : ℚ) ^ f.length := by
  unfold tokenOffset
  rw [Rat.mkRat_eq_div]
  have h10 : ((10 : ℚ)) ^ f.length ≠ 0 := by positivity
  push_cast
  field_simp

theorem ne_lb_of_digit {c : Char} (h : c.isDigit = true) : c ≠ '[' := by
  intro he
  subst he
  exact absurd h (by decide)

theorem digitsNE_spec {l : List Char} (h : digitsNE l = true) :
    l ≠ [] ∧ ∀ x ∈ l, x.isDigit = true := by
  unfold digitsNE at h
  rcases Bool.and_eq_true_iff.mp h with ⟨h1, h2⟩
  refine ⟨?_, ?_⟩
  · intro he
    subst he
    simp at h1
  · exact List.all_eq_true.mp h2

theorem digitSpan_append : ∀ (ds : List Char) (c : Char) (r : List Char),
    (∀ x ∈ ds, x.isDigit = true) → c.isDigit = false →
    digitSpan (ds ++ c :: r) = (ds, c :: r) := by
  intro ds
  induction ds with
  | nil =>
    intro c r _ hc
    simp [digitSpan, List.takeWhile_cons, List.dropWhile_cons, hc]
  | cons d ds ih =>
    intro c r hds hc
    have hd : d.isDigit = true := hds d (List.mem_cons_self _ _)
    have hrec := ih c r (fun x hx => hds x (List.mem_cons_of_mem _ hx)) hc
    unfold digitSpan at hrec ⊢
    simp only [List.cons_append, List.takeWhile_cons, List.dropWhile_cons, hd, if_true,
      Prod.mk.injEq] at hrec ⊢
    exact ⟨by rw [hrec.1], hrec.2⟩

theorem digits1_append (ds : List Char) (c : Char) (r : List Char)
    (hne : ds ≠ []) (hds : ∀ x ∈ ds, x.isDigit = true) (hc : c.isDigit = false) :
    digits1 (ds ++ c :: r) = some (ds, c :: r) := by
  unfold digits1
  rw [digitSpan_append ds c r hds hc]
  cases ds with
  | nil => exact absurd rfl hne
  | cons d ds => rfl

theorem matchTs_token (m s f rest : List Char)
    (hm : digitsNE m = true) (hs : digitsNE s = true) (hf : digitsNE f = true) :
    matchTs (tsToken m s f ++ rest) = some (tokenOffset m s f, rest) := by
  obtain ⟨hmne, hmd⟩ := digitsNE_spec hm
  obtain ⟨hsne, hsd⟩ := digitsNE_spec hs
  obtain ⟨hfne, hfd⟩ := digitsNE_spec hf
  have hshape : tsToken m s f ++ rest =
      '[' :: (m ++ ':' :: (s ++ '.' :: (f ++ ']' :: rest))) := by
    simp [tsToken, List.append_assoc]
  rw [hshape]
  unfold matchTs
  rw [show expectCh '[' ('[' :: (m ++ ':' :: (s ++ '.' :: (f ++ ']' :: rest)))) =
      some (m ++ ':' :: (s ++ '.' :: (f ++ ']' :: rest))) from rfl]
  rw [Option.some_bind]
  rw [digits1_append m ':' _ hmne hmd (by decide)]
  rw [Option.some_bind]
  rw [show expectCh ':' (':' :: (s ++ '.' :: (f ++ ']' :: rest))) =
      some (s ++ '.' :: (f ++ ']' :: rest)) from rfl]
  rw [Option.some_bind]
  rw [digits1_append s '.' _ hsne hsd (by decide)]
  rw [Option.some_bind]
  rw [show expectCh '.' ('.' :: (f ++ ']' :: rest)) = some (f ++ ']' :: rest) from rfl]
  rw [Option.some_bind]
  rw [digits1_append f ']' _ hfne hfd (by decide)]
  rw [Option.some_bind]
  rfl

theorem matchTs_not_lbracket (c : Char) (cs : List Char) (h : c ≠ '[') :
    matchTs (c :: cs) = none := by
  simp [matchTs, expectCh, h]

theorem scanTs_append_no_lb : ∀ (l1 l2 : List Char), (∀ c ∈ l1, c ≠ '[') →
    scanTs (l1 ++ l2) = scanTs l2 := by
  intro l1
  induction l1 with
  | nil => intro l2 _; rfl
  | cons c r ih =>
    intro l2 h
    have hc : c ≠ '[' := h c (List.mem_cons_self _ _)
    show scanTs (c :: (r ++ l2)) = scanTs l2
    simp only [scanTs]
    rw [matchTs_not_lbracket c _ hc]
    exact ih l2 (fun x hx => h x (List.mem_cons_of_mem _ hx))

theorem scanTs_nil_of_no_lb (l : List Char) (h : ∀ c ∈ l, c ≠ '[') :
    scanTs l = [] := by
  have := scanTs_append_no_lb l [] h
  rwa [List.append_nil] at this

theorem tsToken_interior_no_lb (m s f : List Char)
    (hm : digitsNE m = true) (hs : digitsNE s = true) (hf : digitsNE f = true) :
    ∀ c ∈ m ++ ':' :: (s ++ '.' :: (f ++ [']'])), c ≠ '[' := by
  obtain ⟨_, hmd⟩ := digitsNE_spec hm
  obtain ⟨_, hsd⟩ := digitsNE_spec hs
  obtain ⟨_, hfd⟩ := digitsNE_spec hf
  intro c hc he
  subst he
  simp only [List.mem_append, List.mem_cons, List.mem_singleton] at hc
  rcases hc with h | h | h | h | h | h
  · exact absurd (hmd _ h) (by decide)
  · exact absurd h (by decide)
  · exact absurd (hsd _ h) (by decide)
  · exact absurd h (by decide)
  · exact absurd (hfd _ h) (by decide)
  · exact absurd h (by decide)

theorem scanTs_token_cons (m s f rest : List Char)
    (hm : digitsNE m = true) (hs : digitsNE s = true) (hf : digitsNE f = true) :
    scanTs (tsToken m s f ++ rest) = (tokenOffset m s f, rest) :: scanTs rest := by
  have hshape : tsToken m s f ++ rest =
      '[' :: ((m ++ ':' :: (s ++ '.' :: (f ++ [']']))) ++ rest) := by
    simp [tsToken, List.append_assoc]
  rw [hshape]
  simp only [scanTs]
  have hmt : matchTs ('[' :: ((m ++ ':' :: (s ++ '.' :: (f ++ [']']))) ++ rest)) =
      some (tokenOffset m s f, rest) := by
    rw [← hshape]
    exact matchTs_token m s f rest hm hs hf
  rw [hmt]
  rw [scanTs_append_no_lb _ rest (tsToken_interior_no_lb m s f hm hs hf)]

/-! ## Claim theorems: parser -/

/-- Claim C6: a record with multiple timestamp tokens emits one line per
token, each with the offset computed from its own token, all sharing the
trimmed text after the last token; in particular
`"[0:01.0][0:05.0]hello"` parses to two lines, both `"hello"`, at offsets
`1.0` and `5.0`. -/
theorem c6_repeat_directive (m1 s1 f1 m2 s2 f2 txt : List Char)
    (hm1 : digitsNE m1 = true) (hs1 : digitsNE s1 = true) (hf1 : digitsNE f1 = true)
    (hm2 : digitsNE m2 = true) (hs2 : digitsNE s2 = true) (hf2 : digitsNE f2 = true)
    (htxt : ∀ c ∈ txt, c ≠ '[') :
    parseRecord (tsToken m1 s1 f1 ++ (tsToken m2 s2 f2 ++ txt)) =
      [(tokenOffset m1 s1 f1, String.mk (pyStrip txt)),
       (tokenOffset m2 s2 f2, String.mk (pyStrip txt))] ∧
    parse_lrc "[0:01.0][0:05.0]hello" = [((1 : ℚ), "hello"), ((5 : ℚ), "hello")] := by
  constructor
  · have h1 := scanTs_token_cons m1 s1 f1 (tsToken m2 s2 f2 ++ txt) hm1 hs1 hf1
    have h2 := scanTs_token_cons m2 s2 f2 txt hm2 hs2 hf2
    have h3 := scanTs_nil_of_no_lb txt htxt
    unfold parseRecord
    rw [h1, h2, h3]
    rfl
  · decide

/-- Claim C6 witness: the repeat-directive theorem applied to the spec's own
example record, built from the concrete token groups. -/
theorem c6_repeat_directive_witness :
    digitsNE ['0'] = true ∧
    (parseRecord (tsToken ['0'] ['0', '1'] ['0'] ++ (tsToken ['0'] ['0', '5'] ['0'] ++ "hello".data)) =
        [(tokenOffset ['0'] ['0', '1'] ['0'], String.mk (pyStrip "hello".data)),
         (tokenOffset ['0'] ['0', '5'] ['0'], String.mk (pyStrip "hello".data))] ∧
      parse_lrc "[0:01.0][0:05.0]hello" = [((1 : ℚ), "hello"), ((5 : ℚ), "hello")]) :=
  ⟨by decide,
   c6_repeat_directive ['0'] ['0', '1'] ['0'] ['0'] ['0', '5'] ['0'] "hello".data
     (by decide) (by decide) (by decide) (by decide) (by decide) (by decide) (by decide)⟩

/-- Claim C7: a malformed timestamp token inside an otherwise valid record is
dropped without aborting the record or the parse — every recognized token
still produces one line — and `"[0:01.0][bad]hello"` yields exactly one line
at offset `1.0`. -/
theorem c7_malformed_token_recovery :
    (∀ line : List Char, (parseRecord line).length = (scanTs line).length) ∧
    parse_lrc "[0:01.0][bad]hello" = [((1 : ℚ), "[bad]hello")] := by
  constructor
  · intro line
    rcases List.eq_nil_or_concat (scanTs line) with h | ⟨l2, b, h⟩
    · simp [parseRecord, h]
    · simp [parseRecord, h, List.getLast?_concat]
  · decide

/-- Claim C10: a timestamp token with no fractional part in its seconds
field is not recognized: the match fails on any such token, and a record
holding only such tokens contributes zero lines, exactly as a record with no
timestamp at all. -/
theorem c10_integer_seconds_rejected :
    (∀ (m s rest : List Char), digitsNE m = true → digitsNE s = true →
        matchTs ('[' :: (m ++ ':' :: (s ++ ']' :: rest))) = none) ∧
    parseRecord "[0:30]text".data = [] ∧
    parse_lrc "[0:30]text" = [((0 : ℚ), noParseText)] ∧
    parse_lrc "[0:30]text" = parse_lrc "text" := by
  refine ⟨?_, by decide, by decide, by decide⟩
  intro m s rest hm hs
  obtain ⟨hmne, hmd⟩ := digitsNE_spec hm
  obtain ⟨hsne, hsd⟩ := digitsNE_spec hs
  unfold matchTs
  rw [show expectCh '[' ('[' :: (m ++ ':' :: (s ++ ']' :: rest))) =
      some (m ++ ':' :: (s ++ ']' :: rest)) from rfl]
  rw [Option.some_bind]
  rw [digits1_append m ':' _ hmne hmd (by decide)]
  rw [Option.some_bind]
  rw [show expectCh ':' (':' :: (s ++ ']' :: rest)) = some (s ++ ']' :: rest) from rfl]
  rw [Option.some_bind]
  rw [digits1_append s ']' _ hsne hsd (by decide)]
  rw [Option.some_bind]
  rfl

/-! ## Claim theorems: locator bug, startup, window -/

/-- Claim C1 evidence: the spec requires index `0` whenever the playback
time precedes the first offset, but the `for`/`else` in `render_panel`
(src lines 151-157) falls through to the last index when no adjacent pair
brackets the time; at the spec's own example (time `-1`) the code returns
`2`, the last index, not `0`. -/
theorem c1_locator_before_first_offset :
    activeIndex [((0 : ℚ), "a"), (10, "b"), (20, "c")] (-1) = 2 := by decide

/-- Claim C3 counterexample: with a player resolved, a window size of `0`
and a cache capacity of `0` — both invalid per the claim — `main` still
enters the synchronization loop: no configuration validation exists. -/
theorem c3_loop_entered_with_invalid_config :
    mainEntersLoop (some "spotify") none 0 0 = true := by decide

/-- Claim C3 amended: startup ignores the window-size and cache-capacity
values entirely; the only startup-fatal condition is failing to resolve a
player (no name, or an empty name). -/
theorem c3_startup_gate_is_player_only (forced probe : Option String) (w c w2 c2 : Int) :
    mainEntersLoop forced probe w c = mainEntersLoop forced probe w2 c2 ∧
    (mainEntersLoop forced probe w c = false ↔
      choose_player forced probe = none ∨ choose_player forced probe = some "") := by
  refine ⟨rfl, ?_⟩
  cases hcp : choose_player forced probe with
  | none => simp [mainEntersLoop, hcp]
  | some s =>
    unfold mainEntersLoop
    rw [hcp]
    by_cases hse : s = ""
    · subst hse; simp
    · simp [hse]

/-- Claim C4: for window size > 0 and an active index inside the sequence,
the selector returns `(0, totalLines)` when everything fits, and otherwise a
half-open in-bounds window of exactly `size` lines; the three clamping
examples evaluate as specified. -/
theorem c4_window_selection (size idx total : Int)
    (hsize : 0 < size) (hidx0 : 0 ≤ idx) (hidx : idx < total) :
    (total ≤ size → get_indices size idx total = (0, total)) ∧
    (size < total →
      0 ≤ (get_indices size idx total).1 ∧
      (get_indices size idx total).1 ≤ (get_indices size idx total).2 ∧
      (get_indices size idx total).2 ≤ total ∧
      (get_indices size idx total).2 - (get_indices size idx total).1 = size) ∧
    get_indices 10 50 100 = (45, 55) ∧
    get_indices 10 2 100 = (0, 10) ∧
    get_indices 10 98 100 = (90, 100) := by
  refine ⟨fun h => ?_, fun h => ?_, by decide, by decide, by decide⟩
  · unfold get_indices
    rw [if_pos h]
  · have hns : ¬ total ≤ size := not_le.mpr h
    unfold get_indices
    rw [if_neg hns]
    simp only
    generalize Int.fdiv size 2 = half
    refine ⟨?_, ?_, ?_, ?_⟩ <;> omega

/-! ## Sorting lemmas for the parser -/

theorem sorted_tail (y : ℚ × String) (ys : Lyrics)
    (h : sortedByOffset (y :: ys) = true) : sortedByOffset ys = true := by
  cases ys with
  | nil => rfl
  | cons z r =>
    simp only [sortedByOffset, Bool.and_eq_true, decide_eq_true_eq] at h
    exact h.2

theorem sorted_head_le : ∀ (ys : Lyrics) (y : ℚ × String),
    sortedByOffset (y :: ys) = true → ∀ z ∈ ys, y.1 ≤ z.1 := by
  intro ys
  induction ys with
  | nil =>
    intro y _ z hz
    exact absurd hz (List.not_mem_nil z)
  | cons w r ih =>
    intro y h z hz
    have h1 : y.1 ≤ w.1 ∧ sortedByOffset (w :: r) = true := by
      simpa [sortedByOffset] using h
    rcases List.mem_cons.mp hz with rfl | hzr
    · exact h1.1
    · exact le_trans h1.1 (ih w h1.2 z hzr)

theorem sorted_cons_of_head (y : ℚ × String) (l : Lyrics)
    (h1 : sortedByOffset l = true) (h2 : ∀ z ∈ l, y.1 ≤ z.1) :
    sortedByOffset (y :: l) = true := by
  cases l with
  | nil => rfl
  | cons z r =>
    simp only [sortedByOffset, Bool.and_eq_true, decide_eq_true_eq]
    exact ⟨h2 z (List.mem_cons_self _ _), h1⟩

theorem mem_insertByOffset (x z : ℚ × String) :
    ∀ l : Lyrics, z ∈ insertByOffset x l → z = x ∨ z ∈ l := by
  intro l
  induction l with
  | nil =>
    intro h
    simp [insertByOffset] at h
    exact Or.inl h
  | cons y ys ih =>
    intro h
    simp only [insertByOffset] at h
    by_cases hcase : y.1 ≤ x.1
    · rw [if_pos hcase] at h
      rcases List.mem_cons.mp h with rfl | h2
      · exact Or.inr (List.mem_cons_self _ _)
      · rcases ih h2 with h3 | h3
        · exact Or.inl h3
        · exact Or.inr (List.mem_cons_of_mem _ h3)
    · rw [if_neg hcase] at h
      rcases List.mem_cons.mp h with rfl | h2
      · exact Or.inl rfl
      · exact Or.inr h2

theorem sortedByOffset_insert (x : ℚ × String) :
    ∀ l : Lyrics, sortedByOffset l = true →
      sortedByOffset (insertByOffset x l) = true := by
  intro l
  induction l with
  | nil => intro _; rfl
  | cons y ys ih =>
    intro h
    simp only [insertByOffset]
    by_cases hcase : y.1 ≤ x.1
    · rw [if_pos hcase]
      apply sorted_cons_of_head
      · exact ih (sorted_tail y ys h)
      · intro z hz
        rcases mem_insertByOffset x z ys hz with rfl | hzy
        · exact hcase
        · exact sorted_head_le ys y h z hzy
    · rw [if_neg hcase]
      have hxy : x.1 ≤ y.1 := le_of_lt (lt_of_not_le hcase)
      apply sorted_cons_of_head
      · exact h
      · intro z hz
        rcases List.mem_cons.mp hz with rfl | hzr
        · exact hxy
        · exact le_trans hxy (sorted_head_le ys y h z hzr)

theorem offsetFilter_insert_ne (q : ℚ) (x : ℚ × String) (hx : x.1 ≠ q) :
    ∀ l, offsetFilter q (insertByOffset x l) = offsetFilter q l := by
  intro l
  induction l with
  | nil => simp [offsetFilter, insertByOffset, List.filter, hx]
  | cons y ys ih =>
    simp only [insertByOffset]
    by_cases hcase : y.1 ≤ x.1
    · rw [if_pos hcase]
      simp only [offsetFilter] at ih ⊢
      rw [List.filter_cons, List.filter_cons, ih]
    · rw [if_neg hcase]
      simp only [offsetFilter, List.filter_cons]
      rw [if_neg (by simp [hx])]

theorem offsetFilter_nil_of_lt (q : ℚ) (y : ℚ × String) (ys : Lyrics)
    (h : sortedByOffset (y :: ys) = true) (hq : q < y.1) :
    offsetFilter q (y :: ys) = [] := by
  apply List.filter_eq_nil_iff.mpr
  intro z hz
  have hyz : y.1 ≤ z.1 := by
    rcases List.mem_cons.mp hz with rfl | hzr
    · exact le_refl _
    · exact sorted_head_le ys y h z hzr
  simp only [decide_eq_true_eq]
  intro he
  exact absurd (lt_of_lt_of_le hq hyz) (by rw [he]; exact lt_irrefl q)

theorem offsetFilter_insert_eq (q : ℚ) (x : ℚ × String) (hx : x.1 = q) :
    ∀ l, sortedByOffset l = true →
      offsetFilter q (insertByOffset x l) = offsetFilter q l ++ [x] := by
  intro l
  induction l with
  | nil => intro _; simp [offsetFilter, insertByOffset, List.filter, hx]
  | cons y ys ih =>
    intro hs
    simp only [insertByOffset]
    by_cases hcase : y.1 ≤ x.1
    · rw [if_pos hcase]
      have ih2 := ih (sorted_tail y ys hs)
      simp only [offsetFilter] at ih2 ⊢
      rw [List.filter_cons, List.filter_cons, ih2]
      split
      · simp
      · simp
    · rw [if_neg hcase]
      have hnil : offsetFilter q (y :: ys) = [] :=
        offsetFilter_nil_of_lt q y ys hs (hx ▸ lt_of_not_le hcase)
      simp only [offsetFilter, List.filter_cons] at hnil ⊢
      rw [if_pos (by simp [hx]), hnil]
      rfl

theorem pySort_aux_sorted : ∀ (l acc : Lyrics), sortedByOffset acc = true →
    sortedByOffset (l.foldl (fun a x => insertByOffset x a) acc) = true := by
  intro l
  induction l with
  | nil => intro acc h; exact h
  | cons x xs ih =>
    intro acc h
    exact ih _ (sortedByOffset_insert x acc h)

theorem pySort_aux_filter (q : ℚ) : ∀ (l acc : Lyrics), sortedByOffset acc = true →
    offsetFilter q (l.foldl (fun a x => insertByOffset x a) acc) =
      offsetFilter q acc ++ offsetFilter q l := by
  intro l
  induction l with
  | nil =>
    intro acc _
    simp [offsetFilter]
  | cons x xs ih =>
    intro acc h
    rw [List.foldl_cons]
    rw [ih (insertByOffset x acc) (sortedByOffset_insert x acc h)]
    by_cases hx : x.1 = q
    · rw [offsetFilter_insert_eq q x hx acc h]
      simp only [offsetFilter, List.filter_cons]
      rw [if_pos (by simp [hx])]
      simp
    · rw [offsetFilter_insert_ne q x hx acc]
      simp only [offsetFilter, List.filter_cons]
      rw [if_neg (by simp [hx])]

theorem length_insertByOffset (x : ℚ × String) :
    ∀ l : Lyrics, (insertByOffset x l).length = l.length + 1 := by
  intro l
  induction l with
  | nil => rfl
  | cons y ys ih =>
    simp only [insertByOffset]
    by_cases hcase : y.1 ≤ x.1
    · rw [if_pos hcase]
      simp [ih]
    · rw [if_neg hcase]
      simp

theorem pySort_aux_length : ∀ (l acc : Lyrics),
    (l.foldl (fun a x => insertByOffset x a) acc).length = acc.length + l.length := by
  intro l
  induction l with
  | nil => intro acc; simp
  | cons x xs ih =>
    intro acc
    rw [List.foldl_cons, ih]
    simp [length_insertByOffset]
    omega

theorem pySort_sorted (l : Lyrics) : sortedByOffset (pySort l) = true :=
  pySort_aux_sorted l [] rfl

theorem pySort_filter (q : ℚ) (l : Lyrics) :
    offsetFilter q (pySort l) = offsetFilter q l := by
  have h := pySort_aux_filter q l [] rfl
  simpa [offsetFilter] using h

theorem pySort_length (l : Lyrics) : (pySort l).length = l.length := by
  have h := pySort_aux_length l []
  simpa using h

/-- Claim C5: for every input string the parser returns (without raising — it
is total) a non-empty sequence sorted non-decreasing by offset; lines of
equal offset keep their parse order (stability, stated through
`offsetFilter`); and when zero timestamped lines are produced the result is
exactly the one sentinel line at offset 0. -/
theorem c5_parser_total_sorted_stable (text : String) :
    parse_lrc text ≠ [] ∧
    sortedByOffset (parse_lrc text) = true ∧
    (parseLines text = [] → parse_lrc text = [(0, noParseText)]) ∧
    (parseLines text ≠ [] →
      ∀ q : ℚ, offsetFilter q (parse_lrc text) = offsetFilter q (parseLines text)) := by
  by_cases h : (parseLines text).isEmpty
  · have he : parseLines text = [] := List.isEmpty_iff.mp h
    have heq : parse_lrc text = [(0, noParseText)] := by simp [parse_lrc, h]
    exact ⟨by rw [heq]; simp, by rw [heq]; rfl, fun _ => heq, fun hne => absurd he hne⟩
  · have hne : parseLines text ≠ [] := by
      intro hc
      rw [hc] at h
      simp at h
    have heq : parse_lrc text = pySort (parseLines text) := by simp [parse_lrc, h]
    refine ⟨?_, by rw [heq]; exact pySort_sorted _, fun hc => absurd hc hne,
      fun _ q => by rw [heq]; exact pySort_filter q _⟩
    rw [heq]
    intro hc
    have hl := pySort_length (parseLines text)
    rw [hc] at hl
    exact hne (List.eq_nil_of_length_eq_zero hl.symm)

/-! ## Cache lemmas -/

theorem get_lyrics_hit (capacity : Int) (cache : Cache) (a t : String)
    (env : FetchOutcome) (v : Lyrics)
    (hhit : cacheLookup (cacheKey a t) cache = some v) :
    get_lyrics capacity cache a t env = (v, moveToEnd (cacheKey a t) cache, false) := by
  simp only [get_lyrics, hhit]

theorem get_lyrics_miss_ok (capacity : Int) (cache : Cache) (a t : String)
    (env : FetchOutcome) (l : Lyrics)
    (hmiss : cacheLookup (cacheKey a t) cache = none)
    (hfetch : fetch_lyrics env = .ok l) :
    get_lyrics capacity cache a t env =
      (l,
       if capacity < ((cache ++ [(cacheKey a t, l)]).length : Int)
         then (cache ++ [(cacheKey a t, l)]).drop 1
         else cache ++ [(cacheKey a t, l)],
       true) := by
  simp only [get_lyrics, hmiss, hfetch]

theorem get_lyrics_miss_raise (capacity : Int) (cache : Cache) (a t : String)
    (env : FetchOutcome)
    (hmiss : cacheLookup (cacheKey a t) cache = none)
    (hfetch : fetch_lyrics env = .error ()) :
    get_lyrics capacity cache a t env = ([(0, notFoundText)], cache, true) := by
  simp only [get_lyrics, hmiss, hfetch]

theorem lookup_append_self (k : String) (v : Lyrics) :
    ∀ c : Cache, cacheLookup k c = none → cacheLookup k (c ++ [(k, v)]) = some v := by
  intro c
  induction c with
  | nil =>
    intro _
    simp [cacheLookup]
  | cons e r ih =>
    intro h
    simp only [cacheLookup] at h ⊢
    by_cases he : e.1 = k
    · rw [if_pos he] at h
      exact absurd h (by simp)
    · rw [if_neg he] at h ⊢
      exact ih h

theorem lookup_concat_self (k : String) (v : Lyrics) :
    ∀ c2 : Cache, cacheLookup k (c2 ++ [(k, v)]) ≠ none := by
  intro c2
  induction c2 with
  | nil => simp [cacheLookup]
  | cons e r ih =>
    simp only [cacheLookup]
    by_cases he : e.1 = k
    · rw [if_pos he]
      simp
    · rw [if_neg he]
      exact ih

theorem lookup_append_left (k : String) (c3 : Cache) :
    ∀ c1 : Cache, cacheLookup k c1 ≠ none → cacheLookup k (c1 ++ c3) ≠ none := by
  intro c1
  induction c1 with
  | nil => intro h; exact absurd rfl h
  | cons e r ih =>
    intro h
    simp only [cacheLookup] at h ⊢
    by_cases he : e.1 = k
    · rw [if_pos he]
      simp
    · rw [if_neg he] at h ⊢
      exact ih h

theorem length_moveToEnd (k : String) : ∀ c : Cache, (moveToEnd k c).length = c.length := by
  intro c
  induction c with
  | nil => rfl
  | cons e r ih =>
    simp only [moveToEnd]
    by_cases he : e.1 = k
    · rw [if_pos he]
      simp
    · rw [if_neg he]
      simp [ih]

theorem moveToEnd_eq_concat (k : String) (v : Lyrics) :
    ∀ c : Cache, cacheLookup k c = some v →
      ∃ c2 : Cache, moveToEnd k c = c2 ++ [(k, v)] ∧ c2.length + 1 = c.length := by
  intro c
  induction c with
  | nil => intro h; exact absurd h (by simp [cacheLookup])
  | cons e r ih =>
    intro h
    simp only [cacheLookup] at h
    simp only [moveToEnd]
    by_cases he : e.1 = k
    · rw [if_pos he] at h
      rw [if_pos he]
      refine ⟨r, ?_, by simp⟩
      obtain ⟨e1, e2⟩ := e
      simp only at he
      simp only [Option.some.injEq] at h
      rw [he, h]
    · rw [if_neg he] at h
      rw [if_neg he]
      obtain ⟨c2, hc2, hlen⟩ := ih h
      exact ⟨e :: c2, by rw [hc2]; rfl, by simp [← hlen]⟩

theorem get_lyrics_length_le (capacity : Int) (cache : Cache) (a t : String)
    (env : FetchOutcome) (h : (cache.length : Int) ≤ capacity) :
    (((get_lyrics capacity cache a t env).2.1).length : Int) ≤ capacity := by
  cases hl : cacheLookup (cacheKey a t) cache with
  | some v =>
    rw [get_lyrics_hit capacity cache a t env v hl]
    simpa [length_moveToEnd] using h
  | none =>
    cases hf : fetch_lyrics env with
    | error u =>
      cases u
      rw [get_lyrics_miss_raise capacity cache a t env hl hf]
      exact h
    | ok l =>
      rw [get_lyrics_miss_ok capacity cache a t env l hl hf]
      simp only [List.length_append, List.length_cons, List.length_nil]
      by_cases hover : capacity < ((cache.length + 1 : ℕ) : Int)
      · rw [if_pos hover]
        simp only [List.length_drop, List.length_append, List.length_cons, List.length_nil]
        omega
      · rw [if_neg hover]
        simp only [List.length_append, List.length_cons, List.length_nil]
        omega

theorem runOps_length_le (capacity : Int) :
    ∀ (ops : List TickOp) (cache : Cache), (cache.length : Int) ≤ capacity →
      ((runOps capacity cache ops).length : Int) ≤ capacity := by
  intro ops
  induction ops with
  | nil => intro cache h; exact h
  | cons op rest ih =>
    intro cache h
    exact ih _ (get_lyrics_length_le capacity cache op.artist op.title op.env h)

/-! ## Claim theorems: cache -/

/-- Claim C2: when retrieval fails with a network error, a timeout or an
empty search result — all absorbed inside `_fetch_lyrics` — the one-line
not-found sentinel is returned *and stored* under the song's key, so an
immediately following call for the same identity is a cache hit that does
not invoke retrieval. -/
theorem c2_failed_fetch_cached (cache : Cache) (capacity : Int)
    (artist title : String) (env : FetchOutcome)
    (hcap : 1 ≤ capacity)
    (hmiss : cacheLookup (cacheKey artist title) cache = none)
    (henv : env = FetchOutcome.httpFailure ∨ env = FetchOutcome.searchResult []) :
    (get_lyrics capacity cache artist title env).1 = [(0, notFoundText)] ∧
    (get_lyrics capacity cache artist title env).2.2 = true ∧
    cacheLookup (cacheKey artist title)
      ((get_lyrics capacity cache artist title env).2.1) = some [(0, notFoundText)] ∧
    (∀ env2 : FetchOutcome,
      (get_lyrics capacity ((get_lyrics capacity cache artist title env).2.1)
          artist title env2).1 = [(0, notFoundText)] ∧
      (get_lyrics capacity ((get_lyrics capacity cache artist title env).2.1)
          artist title env2).2.2 = false) := by
  have hfetch : fetch_lyrics env = .ok [(0, notFoundText)] := by
    rcases henv with h | h <;> subst h <;> rfl
  rw [get_lyrics_miss_ok capacity cache artist title env _ hmiss hfetch]
  have hlook : cacheLookup (cacheKey artist title)
      (if capacity < (((cache ++ [(cacheKey artist title, [(0, notFoundText)])]).length : ℕ) : Int)
        then (cache ++ [(cacheKey artist title, [(0, notFoundText)])]).drop 1
        else cache ++ [(cacheKey artist title, [(0, notFoundText)])]) =
      some [(0, notFoundText)] := by
    by_cases hover : capacity <
        (((cache ++ [(cacheKey artist title, [(0, notFoundText)])]).length : ℕ) : Int)
    · rw [if_pos hover]
      simp only [List.length_append, List.length_cons, List.length_nil] at hover
      have hne : cache ≠ [] := by
        intro hc
        subst hc
        simp at hover
        omega
      obtain ⟨e, r, rfl⟩ := List.exists_cons_of_ne_nil hne
      have hr : cacheLookup (cacheKey artist title) r = none := by
        simp only [cacheLookup] at hmiss
        by_cases he : e.1 = cacheKey artist title
        · rw [if_pos he] at hmiss; exact absurd hmiss (by simp)
        · rwa [if_neg he] at hmiss
      simpa using lookup_append_self (cacheKey artist title) _ r hr
    · rw [if_neg hover]
      exact lookup_append_self (cacheKey artist title) _ cache hmiss
  refine ⟨rfl, rfl, hlook, ?_⟩
  intro env2
  rw [get_lyrics_hit capacity _ artist title env2 _ hlook]
  exact ⟨rfl, rfl⟩

/-- Claim C2 witness: the caching-of-failure theorem applied to an empty
cache, capacity 50 and a network failure. -/
theorem c2_failed_fetch_cached_witness :
    (1 : Int) ≤ 50 ∧ cacheLookup (cacheKey "a" "b") [] = none ∧
    ((get_lyrics 50 [] "a" "b" FetchOutcome.httpFailure).1 = [(0, notFoundText)] ∧
     (get_lyrics 50 [] "a" "b" FetchOutcome.httpFailure).2.2 = true ∧
     cacheLookup (cacheKey "a" "b")
       ((get_lyrics 50 [] "a" "b" FetchOutcome.httpFailure).2.1) = some [(0, notFoundText)] ∧
     (∀ env2 : FetchOutcome,
       (get_lyrics 50 ((get_lyrics 50 [] "a" "b" FetchOutcome.httpFailure).2.1)
           "a" "b" env2).1 = [(0, notFoundText)] ∧
       (get_lyrics 50 ((get_lyrics 50 [] "a" "b" FetchOutcome.httpFailure).2.1)
           "a" "b" env2).2.2 = false)) :=
  ⟨by decide, rfl,
   c2_failed_fetch_cached [] 50 "a" "b" FetchOutcome.httpFailure (by decide) rfl (Or.inl rfl)⟩

/-- Claim C8 counterexample: with capacity `1`, a hit on the only entry
promotes it to most-recently-used, yet the very next insertion evicts that
same just-promoted key — contradicting "it is not the victim of the next
eviction".  The hit is real (`fetched = false`), the insertion stores the
new key, and the promoted key is gone. -/
theorem c8_promoted_key_still_evicted :
    (get_lyrics 1 [("A - B", [(0, "x")])] "A" "B" FetchOutcome.httpFailure).2.2 = false ∧
    cacheLookup "C - D"
      ((get_lyrics 1 ((get_lyrics 1 [("A - B", [(0, "x")])] "A" "B"
          FetchOutcome.httpFailure).2.1) "C" "D" (FetchOutcome.searchResult [])).2.1) =
        some [(0, notFoundText)] ∧
    cacheLookup "A - B"
      ((get_lyrics 1 ((get_lyrics 1 [("A - B", [(0, "x")])] "A" "B"
          FetchOutcome.httpFailure).2.1) "C" "D" (FetchOutcome.searchResult [])).2.1) = none := by
  refine ⟨rfl, rfl, rfl⟩

/-- Claim C8 amended: with capacity ≥ 1 the entry count never exceeds the
capacity; an insertion that overflows evicts exactly the single
least-recently-used (oldest) entry; and a cache hit promotes the accessed
key to most-recently-used, so it survives the immediately following
operation whenever the cache then holds at least two entries — with fewer
entries (capacity 1) the promoted key can still be the next victim, as it
is then itself the least recently used. -/
theorem c8_lru_properties (capacity : Int) :
    (∀ (cache : Cache) (ops : List TickOp), (cache.length : Int) ≤ capacity →
      ((runOps capacity cache ops).length : Int) ≤ capacity) ∧
    (∀ (cache : Cache) (a t : String) (env : FetchOutcome) (l : Lyrics),
      1 ≤ capacity →
      cacheLookup (cacheKey a t) cache = none →
      fetch_lyrics env = .ok l →
      capacity < (cache.length : Int) + 1 →
      (get_lyrics capacity cache a t env).2.1 = cache.drop 1 ++ [(cacheKey a t, l)]) ∧
    (∀ (cache : Cache) (a t : String) (env : FetchOutcome)
        (a2 t2 : String) (env2 : FetchOutcome) (v : Lyrics) (l : Lyrics),
      cacheLookup (cacheKey a t) cache = some v →
      2 ≤ cache.length →
      cacheLookup (cacheKey a2 t2) ((get_lyrics capacity cache a t env).2.1) = none →
      fetch_lyrics env2 = .ok l →
      cacheLookup (cacheKey a t)
        ((get_lyrics capacity ((get_lyrics capacity cache a t env).2.1) a2 t2 env2).2.1) ≠
          none) := by
  refine ⟨fun cache ops h => runOps_length_le capacity ops cache h, ?_, ?_⟩
  · intro cache a t env l hcap hmiss hfetch hover
    rw [get_lyrics_miss_ok capacity cache a t env l hmiss hfetch]
    simp only [List.length_append, List.length_cons, List.length_nil]
    have hcond : capacity < ((cache.length + 1 : ℕ) : Int) := by
      push_cast
      omega
    rw [if_pos (by simpa using hcond)]
    have hne : cache ≠ [] := by
      intro hc
      subst hc
      simp at hover
      omega
    obtain ⟨e, r, rfl⟩ := List.exists_cons_of_ne_nil hne
    rfl
  · intro cache a t env a2 t2 env2 v l hhit hlen hmiss2 hfetch2
    rw [get_lyrics_hit capacity cache a t env v hhit] at hmiss2 ⊢
    obtain ⟨c2, hc2, hc2len⟩ := moveToEnd_eq_concat (cacheKey a t) v cache hhit
    rw [get_lyrics_miss_ok capacity _ a2 t2 env2 l hmiss2 hfetch2]
    by_cases hover : capacity <
        (((moveToEnd (cacheKey a t) cache ++ [(cacheKey a2 t2, l)]).length : ℕ) : Int)
    · rw [if_pos hover]
      have hc2ne : c2 ≠ [] := by
        intro hc
        subst hc
        simp at hc2len
        omega
      obtain ⟨e, r, rfl⟩ := List.exists_cons_of_ne_nil hc2ne
      rw [hc2]
      simp only [List.cons_append, List.drop_succ_cons, List.drop_zero]
      exact lookup_append_left (cacheKey a t) [(cacheKey a2 t2, l)] (r ++ [(cacheKey a t, v)])
        (lookup_concat_self (cacheKey a t) v r)
    · rw [if_neg hover]
      rw [hc2]
      exact lookup_append_left (cacheKey a t) [(cacheKey a2 t2, l)] (c2 ++ [(cacheKey a t, v)])
        (lookup_concat_self (cacheKey a t) v c2)

/-- Claim C4 witness: the window theorem applied at the centered example
`select(50, 100, 10)`. -/
theorem c4_window_selection_witness :
    (0 : Int) < 10 ∧ (0 : Int) ≤ 50 ∧ (50 : Int) < 100 ∧
    (((100 : Int) ≤ 10 → get_indices 10 50 100 = (0, 100)) ∧
     ((10 : Int) < 100 →
       0 ≤ (get_indices 10 50 100).1 ∧
       (get_indices 10 50 100).1 ≤ (get_indices 10 50 100).2 ∧
       (get_indices 10 50 100).2 ≤ 100 ∧
       (get_indices 10 50 100).2 - (get_indices 10 50 100).1 = 10) ∧
     get_indices 10 50 100 = (45, 55) ∧
     get_indices 10 2 100 = (0, 10) ∧
     get_indices 10 98 100 = (90, 100)) :=
  ⟨by decide, by decide, by decide,
   c4_window_selection 10 50 100 (by decide) (by decide) (by decide)⟩

/-! ## Locator lemmas (the loop of src lines 151-157) -/

theorem getD_map_fst (l : Lyrics) (i : Nat) :
    (l.map Prod.fst).getD i 0 = offAt l i := by
  simp only [offAt, List.getD_eq_getElem?_getD, List.getElem?_map]
  cases l[i]? <;> rfl

theorem findBracket_cons_cons (t a b : ℚ) (r2 : List ℚ) :
    findBracket t (a :: b :: r2) =
      if a ≤ t ∧ t < b then some 0 else (findBracket t (b :: r2)).map (· + 1) := rfl

theorem findBracket_some (t : ℚ) :
    ∀ (l : List ℚ) (i : Nat), findBracket t l = some i →
      i + 1 < l.length ∧ l.getD i 0 ≤ t ∧ t < l.getD (i + 1) 0 := by
  intro l
  induction l with
  | nil =>
    intro i h
    simp [findBracket] at h
  | cons a rest ih =>
    intro i h
    cases rest with
    | nil => simp [findBracket] at h
    | cons b r2 =>
      rw [findBracket_cons_cons] at h
      by_cases hc : a ≤ t ∧ t < b
      · rw [if_pos hc] at h
        have h0 : 0 = i := by simpa using h
        subst h0
        refine ⟨by simp, by simpa [List.getD] using hc.1, by simpa [List.getD] using hc.2⟩
      · rw [if_neg hc] at h
        cases hfb : findBracket t (b :: r2) with
        | none =>
          rw [hfb] at h
          simp at h
        | some j =>
          rw [hfb] at h
          simp at h
          obtain ⟨hj1, hj2, hj3⟩ := ih j hfb
          subst h
          refine ⟨by simpa [List.length_cons] using Nat.succ_lt_succ hj1, ?_, ?_⟩
          · simpa [List.getD_cons_succ] using hj2
          · simpa [List.getD_cons_succ] using hj3

theorem findBracket_none (t : ℚ) :
    ∀ l : List ℚ, findBracket t l = none →
      ∀ i, i + 1 < l.length → ¬(l.getD i 0 ≤ t ∧ t < l.getD (i + 1) 0) := by
  intro l
  induction l with
  | nil =>
    intro _ i hi
    simp at hi
  | cons a rest ih =>
    intro h i hi
    cases rest with
    | nil => simp at hi
    | cons b r2 =>
      rw [findBracket_cons_cons] at h
      by_cases hc : a ≤ t ∧ t < b
      · rw [if_pos hc] at h
        simp at h
      · rw [if_neg hc] at h
        have hfb : findBracket t (b :: r2) = none := by
          cases hfb2 : findBracket t (b :: r2) with
          | none => rfl
          | some j =>
            rw [hfb2] at h
            simp at h
        cases i with
        | zero => simpa [List.getD] using hc
        | succ j =>
          have hj : j + 1 < (b :: r2).length := by
            simpa [List.length_cons] using hi
          have := ih hfb j hj
          simpa [List.getD_cons_succ] using this

theorem sortedByOffset_adj : ∀ l : Lyrics, sortedByOffset l = true →
    ∀ i, i + 1 < l.length → offAt l i ≤ offAt l (i + 1) := by
  intro l
  induction l with
  | nil =>
    intro _ i hi
    simp at hi
  | cons x rest ih =>
    intro h i hi
    cases rest with
    | nil => simp at hi
    | cons y r2 =>
      have h2 : x.1 ≤ y.1 ∧ sortedByOffset (y :: r2) = true := by
        simpa [sortedByOffset] using h
      cases i with
      | zero => simpa [offAt, List.getD] using h2.1
      | succ j =>
        have hj : j + 1 < (y :: r2).length := by
          simpa [List.length_cons] using hi
        have := ih h2.2 j hj
        simpa [offAt, List.getD_cons_succ] using this

theorem sortedByOffset_le (l : Lyrics) (hs : sortedByOffset l = true) :
    ∀ i j, i ≤ j → j < l.length → offAt l i ≤ offAt l j := by
  intro i j hij
  induction j, hij using Nat.le_induction with
  | base => intro _; exact le_refl _
  | succ k hik ih2 =>
    intro hj
    exact le_trans (ih2 (Nat.lt_of_succ_lt hj)) (sortedByOffset_adj l hs k hj)

theorem last_le_of_no_bracket (t : ℚ) :
    ∀ l : List ℚ, l ≠ [] → l.getD 0 0 ≤ t →
      (∀ i, i + 1 < l.length → ¬(l.getD i 0 ≤ t ∧ t < l.getD (i + 1) 0)) →
      l.getD (l.length - 1) 0 ≤ t := by
  intro l
  induction l with
  | nil =>
    intro h
    exact absurd rfl h
  | cons a rest ih =>
    intro _ h0 hnb
    cases rest with
    | nil => simpa [List.getD] using h0
    | cons b r2 =>
      have ha : a ≤ t := by simpa [List.getD] using h0
      have hb : b ≤ t := by
        have hn := hnb 0 (by simp)
        simp only [List.getD] at hn
        by_contra hbt
        exact hn ⟨by simpa using ha, by simpa using not_le.mp hbt⟩
      have hr := ih (by simp) (by simpa [List.getD] using hb) (fun i hi => by
        have := hnb (i + 1) (by simpa [List.length_cons] using Nat.succ_lt_succ hi)
        simpa [List.getD_cons_succ] using this)
      simpa [List.getD_cons_succ, List.length_cons] using hr

/-- Claim C9: on a sorted non-empty sequence, for any time at or past the
first offset, the locator returns the greatest index whose offset has been
reached and (when a successor exists) is strictly before the successor's
offset; at or beyond the last offset it returns the last index, and on a
single-element sequence it returns 0. -/
theorem c9_locator_greatest_reached (l : Lyrics) (t : ℚ)
    (hs : sortedByOffset l = true) (hne : l ≠ []) (h0 : offAt l 0 ≤ t) :
    activeIndex l t < l.length ∧
    offAt l (activeIndex l t) ≤ t ∧
    (activeIndex l t + 1 < l.length →
      offAt l (activeIndex l t) < offAt l (activeIndex l t + 1)) ∧
    (∀ j, j < l.length → offAt l j ≤ t →
      (j + 1 < l.length → offAt l j < offAt l (j + 1)) → j ≤ activeIndex l t) ∧
    (offAt l (l.length - 1) ≤ t → activeIndex l t = l.length - 1) ∧
    (l.length = 1 → activeIndex l t = 0) := by
  have hlen : 0 < l.length := List.length_pos.mpr hne
  have hmap : (l.map Prod.fst).length = l.length := List.length_map _ _
  cases hfb : findBracket t (l.map Prod.fst) with
  | some i =>
    simp only [activeIndex, hfb]
    obtain ⟨hi1, hi2, hi3⟩ := findBracket_some t (l.map Prod.fst) i hfb
    rw [hmap] at hi1
    rw [getD_map_fst] at hi2 hi3
    have hmax : ∀ j, j < l.length → offAt l j ≤ t → j ≤ i := by
      intro j hj hjt
      by_contra hc
      push_neg at hc
      have hle : offAt l (i + 1) ≤ offAt l j := sortedByOffset_le l hs (i + 1) j (by omega) hj
      exact absurd hjt (not_le.mpr (lt_of_lt_of_le hi3 hle))
    refine ⟨by omega, hi2, fun _ => lt_of_le_of_lt hi2 hi3,
      fun j hj hjt _ => hmax j hj hjt, ?_, ?_⟩
    · intro hlast
      have h1 : i + 1 ≤ l.length - 1 := by omega
      have h2 : offAt l (i + 1) ≤ offAt l (l.length - 1) :=
        sortedByOffset_le l hs _ _ h1 (by omega)
      exact absurd (lt_of_lt_of_le hi3 (le_trans h2 hlast)) (lt_irrefl t)
    · intro hone
      omega
  | none =>
    simp only [activeIndex, hfb]
    have hnb := findBracket_none t (l.map Prod.fst) hfb
    have hlast : offAt l (l.length - 1) ≤ t := by
      have hmne : l.map Prod.fst ≠ [] := by
        simpa [List.map_eq_nil_iff] using hne
      have h0x : (l.map Prod.fst).getD 0 0 ≤ t := by
        rw [getD_map_fst]
        exact h0
      have := last_le_of_no_bracket t (l.map Prod.fst) hmne h0x (fun i hi => hnb i hi)
      rw [hmap, getD_map_fst] at this
      exact this
    refine ⟨by omega, hlast, fun hcontra => absurd hcontra (by omega),
      fun j hj _ _ => by omega, fun _ => by trivial, fun h1 => by omega⟩

/-- Claim C9 witness: the locator theorem applied at the spec's example
sequence with time 10, where the active index is 1. -/
theorem c9_locator_greatest_reached_witness :
    sortedByOffset [((0 : ℚ), "a"), (10, "b"), (20, "c")] = true ∧
    ([((0 : ℚ), "a"), (10, "b"), (20, "c")] : Lyrics) ≠ [] ∧
    offAt [((0 : ℚ), "a"), (10, "b"), (20, "c")] 0 ≤ 10 ∧
    (activeIndex [((0 : ℚ), "a"), (10, "b"), (20, "c")] 10 <
        ([((0 : ℚ), "a"), (10, "b"), (20, "c")] : Lyrics).length ∧
     offAt [((0 : ℚ), "a"), (10, "b"), (20, "c")]
        (activeIndex [((0 : ℚ), "a"), (10, "b"), (20, "c")] 10) ≤ 10 ∧
     (activeIndex [((0 : ℚ), "a"), (10, "b"), (20, "c")] 10 + 1 <
          ([((0 : ℚ), "a"), (10, "b"), (20, "c")] : Lyrics).length →
       offAt [((0 : ℚ), "a"), (10, "b"), (20, "c")]
           (activeIndex [((0 : ℚ), "a"), (10, "b"), (20, "c")] 10) <
         offAt [((0 : ℚ), "a"), (10, "b"), (20, "c")]
           (activeIndex [((0 : ℚ), "a"), (10, "b"), (20, "c")] 10 + 1)) ∧
     (∀ j, j < ([((0 : ℚ), "a"), (10, "b"), (20, "c")] : Lyrics).length →
       offAt [((0 : ℚ), "a"), (10, "b"), (20, "c")] j ≤ 10 →
       (j + 1 < ([((0 : ℚ), "a"), (10, "b"), (20, "c")] : Lyrics).length →
         offAt [((0 : ℚ), "a"), (10, "b"), (20, "c")] j <
           offAt [((0 : ℚ), "a"), (10, "b"), (20, "c")] (j + 1)) →
       j ≤ activeIndex [((0 : ℚ), "a"), (10, "b"), (20, "c")] 10) ∧
     (offAt [((0 : ℚ), "a"), (10, "b"), (20, "c")]
          (([((0 : ℚ), "a"), (10, "b"), (20, "c")] : Lyrics).length - 1) ≤ 10 →
       activeIndex [((0 : ℚ), "a"), (10, "b"), (20, "c")] 10 =
         ([((0 : ℚ), "a"), (10, "b"), (20, "c")] : Lyrics).length - 1) ∧
     (([((0 : ℚ), "a"), (10, "b"), (20, "c")] : Lyrics).length = 1 →
       activeIndex [((0 : ℚ), "a"), (10, "b"), (20, "c")] 10 = 0)) :=
  ⟨by decide, by decide, by decide,
   c9_locator_greatest_reached [((0 : ℚ), "a"), (10, "b"), (20, "c")] 10
     (by decide) (by decide) (by decide)⟩

end Lrclibium
